import Mathlib

/-!
Shallow embedding of the zoomsaic mosaic engine (`main.cjs`, first/current
variant of the source) and proofs about it.

Modelling conventions:
* JavaScript strings are modelled as `List Char` (`JStr`); all string
  operations used by the code (`split`, `trim`, `join`, `parseInt`,
  template interpolation of integers, `padStart`) are defined explicitly
  below with JavaScript semantics.
* JavaScript numbers are modelled as `Int` where the code only ever holds
  integers (pixel channel values, tile sizes, frame counters) and as `ℚ`
  where real division / `Math.pow` / `Math.round` are involved
  (`Math.round x` is `⌊x + 1/2⌋`).
* `Set` objects of the code (`corruptedTiles`, `usedTiles`) are modelled
  as duplicate-free insertion lists queried with `contains`.
* Fallible operations (`findBestTile` throwing, compositing a cell) return
  `Except JStr _`; image decoding (the `sharp` library) is an abstract
  parameter `JStr → Except JStr (List Nat)` returning the raw pixel buffer
  or an error on decode/resize failure.
-/

set_option linter.unusedVariables false

/-- JavaScript strings, modelled as lists of characters. -/
abbrev JStr := List Char

/-- An `{r, g, b}` colour object as used by the code (JS numbers holding
integers). -/
structure Color where
  r : Int
  g : Int
  b : Int
deriving DecidableEq, Repr

/-- A tile record `{path, r, g, b}`: the precomputed average colour of one
tile image (`getAverageColor` / one CSV row). -/
structure Tile where
  path : JStr
  r : Int
  g : Int
  b : Int
deriving DecidableEq, Repr

/-- The colour carried by a tile record (the code passes the tile object
itself where a colour is expected; `colorDistanceSq` only reads `r,g,b`). -/
def Tile.color (t : Tile) : Color := ⟨t.r, t.g, t.b⟩

/-- `colorDistanceSq(color1, color2)` from the source: sum of squared
per-channel differences. -/
def colorDistanceSq (color1 color2 : Color) : Int :=
  let dr := color1.r - color2.r
  let dg := color1.g - color2.g
  let db := color1.b - color2.b
  dr * dr + dg * dg + db * db

/-- The loop of `findBestTile` (source lines 178-187): scan the remaining
candidates, keeping the current best tile and its distance, replacing them
only on a strictly smaller distance. -/
def findBestAux (targetColor : Color) : Tile × Int → List Tile → Tile × Int
  | acc, [] => acc
  | acc, tile :: rest =>
    let distance := colorDistanceSq targetColor tile.color
    if distance < acc.2 then findBestAux targetColor (tile, distance) rest
    else findBestAux targetColor acc rest

/-- The error message thrown by `findBestTile` when every candidate is
corrupted. -/
def noValidTilesMsg : JStr := "No valid tiles available - all tiles are corrupted".data

/-- `findBestTile(targetColor, tiles)` from the source: filter out tiles
whose path is in the corrupted set, throw if none remain, otherwise do a
linear scan starting from the first valid tile. -/
def findBestTile (corrupted : List JStr) (targetColor : Color) (tiles : List Tile) :
    Except JStr Tile :=
  let validTiles := tiles.filter (fun tile => !(corrupted.contains tile.path))
  match validTiles with
  | [] => .error noValidTilesMsg
  | t0 :: rest =>
    .ok (findBestAux targetColor (t0, colorDistanceSq targetColor t0.color) rest).1

/-- Invariant of the `findBestTile` scan loop: starting from honest state
`(b, dist b)`, the result is either the initial tile `b` (and then nothing
in `rest` beats it strictly), or some element of `rest` that strictly beats
`b`, strictly beats everything before it in `rest`, and is beaten by
nothing after it. -/
theorem findBestAux_spec (target : Color) (b : Tile) (rest : List Tile) :
    (let r := (findBestAux target (b, colorDistanceSq target b.color) rest).1
    (r = b ∧ ∀ t ∈ rest, colorDistanceSq target b.color ≤ colorDistanceSq target t.color)
    ∨ (∃ l1 l2, rest = l1 ++ r :: l2 ∧
        colorDistanceSq target r.color < colorDistanceSq target b.color ∧
        (∀ t ∈ l1, colorDistanceSq target r.color < colorDistanceSq target t.color) ∧
        (∀ t ∈ l2, colorDistanceSq target r.color ≤ colorDistanceSq target t.color))) := by
  induction rest generalizing b with
  | nil => exact Or.inl ⟨rfl, by simp⟩
  | cons t ts ih =>
    simp only [findBestAux]
    by_cases hlt : colorDistanceSq target t.color < colorDistanceSq target b.color
    · rw [if_pos hlt]
      rcases ih t with ⟨hr, hmin⟩ | ⟨l1, l2, hsplit, hbeat, hpre, hpost⟩
      · refine Or.inr ⟨[], ts, by simp [hr], ?_, by simp, ?_⟩
        · rw [hr]; exact hlt
        · rw [hr]; exact hmin
      · refine Or.inr ⟨t :: l1, l2,
          by rw [List.cons_append]; exact congrArg (List.cons t) hsplit,
          lt_trans hbeat hlt, ?_, hpost⟩
        intro u hu
        rcases List.mem_cons.mp hu with rfl | hu
        · exact hbeat
        · exact hpre u hu
    · rw [if_neg hlt]
      push_neg at hlt
      rcases ih b with ⟨hr, hmin⟩ | ⟨l1, l2, hsplit, hbeat, hpre, hpost⟩
      · refine Or.inl ⟨hr, ?_⟩
        intro u hu
        rcases List.mem_cons.mp hu with rfl | hu
        · exact hlt
        · exact hmin u hu
      · refine Or.inr ⟨t :: l1, l2,
          by rw [List.cons_append]; exact congrArg (List.cons t) hsplit,
          hbeat, ?_, hpost⟩
        intro u hu
        rcases List.mem_cons.mp hu with rfl | hu
        · exact lt_of_lt_of_le hbeat hlt
        · exact hpre u hu

/-- With an empty corrupted set, `findBestTile` on a non-empty candidate
list returns (without error) some candidate that is minimal in squared
distance over the whole list and strictly beats everything before it in
candidate order (first-of-the-ties). -/
theorem findBestTile_min_first (target : Color) (tiles : List Tile) (h : tiles ≠ []) :
    ∃ res l1 l2, findBestTile [] target tiles = .ok res ∧ tiles = l1 ++ res :: l2 ∧
      (∀ t ∈ tiles, colorDistanceSq target res.color ≤ colorDistanceSq target t.color) ∧
      (∀ t ∈ l1, colorDistanceSq target res.color < colorDistanceSq target t.color) := by
  have hfilter : tiles.filter (fun tile => !(([] : List JStr).contains tile.path)) = tiles := by
    simp
  match htiles : tiles with
  | [] => exact absurd htiles h
  | t0 :: rest =>
    rw [htiles] at hfilter
    rcases findBestAux_spec target t0 rest with ⟨hr, hmin⟩ | ⟨l1, l2, hsplit, hbeat, hpre, hpost⟩
    · refine ⟨t0, [], rest, ?_, by simp, ?_, by simp⟩
      · simp only [findBestTile, hfilter]
        rw [hr]
      · intro u hu
        rcases List.mem_cons.mp hu with rfl | hu
        · exact le_refl _
        · rw [← hr]; rw [hr]; exact hmin u hu
    · set r := (findBestAux target (t0, colorDistanceSq target t0.color) rest).1 with hrdef
      refine ⟨r, t0 :: l1, l2, ?_, by rw [hsplit, List.cons_append], ?_, ?_⟩
      · simp only [findBestTile, hfilter]
      · intro u hu
        rcases List.mem_cons.mp hu with rfl | hu
        · exact le_of_lt hbeat
        · rw [hsplit] at hu
          rcases List.mem_append.mp hu with hu | hu
          · exact le_of_lt (hpre u hu)
          · rcases List.mem_cons.mp hu with rfl | hu
            · exact le_refl _
            · exact hpost u hu
      · intro u hu
        rcases List.mem_cons.mp hu with rfl | hu
        · exact hbeat
        · exact hpre u hu

/-- The three candidate tiles of the spec's best-match example. -/
def exampleTiles : List Tile :=
  [⟨"a".data, 10, 10, 10⟩, ⟨"b".data, 200, 200, 200⟩, ⟨"c".data, 100, 100, 100⟩]

/-- C1: for every non-empty candidate list, `findBestTile` (with nothing
corrupted) returns a candidate of minimal squared-Euclidean RGB distance to
the target, the first such in candidate order; and on the spec's example
with target `(90,90,90)` it returns the `(100,100,100)` tile. -/
theorem claim_C1_findBest_minimal_stable :
    (∀ (target : Color) (tiles : List Tile), tiles ≠ [] →
      ∃ res l1 l2, findBestTile [] target tiles = .ok res ∧ tiles = l1 ++ res :: l2 ∧
        (∀ t ∈ tiles, colorDistanceSq target res.color ≤ colorDistanceSq target t.color) ∧
        (∀ t ∈ l1, colorDistanceSq target res.color < colorDistanceSq target t.color)) ∧
    findBestTile [] ⟨90, 90, 90⟩ exampleTiles = .ok ⟨"c".data, 100, 100, 100⟩ := by
  constructor
  · exact findBestTile_min_first
  · rfl

/-- Witness for C1: the general statement applied to the spec's concrete
example list (which is non-empty). -/
theorem claim_C1_witness :
    ∃ res l1 l2, findBestTile [] ⟨90, 90, 90⟩ exampleTiles = .ok res ∧
      exampleTiles = l1 ++ res :: l2 ∧
      (∀ t ∈ exampleTiles,
        colorDistanceSq ⟨90, 90, 90⟩ res.color ≤ colorDistanceSq ⟨90, 90, 90⟩ t.color) ∧
      (∀ t ∈ l1,
        colorDistanceSq ⟨90, 90, 90⟩ res.color < colorDistanceSq ⟨90, 90, 90⟩ t.color) :=
  claim_C1_findBest_minimal_stable.1 ⟨90, 90, 90⟩ exampleTiles (by decide)

/-- Reduction of `findBestTile` when the corrupted filter empties the
candidates. -/
theorem findBestTile_eq_error (corrupted : List JStr) (target : Color) (tiles : List Tile)
    (h : tiles.filter (fun tile => !(corrupted.contains tile.path)) = []) :
    findBestTile corrupted target tiles = .error noValidTilesMsg := by
  simp only [findBestTile]
  rw [h]

/-- Reduction of `findBestTile` when the corrupted filter leaves a first
valid tile. -/
theorem findBestTile_eq_ok (corrupted : List JStr) (target : Color) (tiles : List Tile)
    (t0 : Tile) (rest : List Tile)
    (h : tiles.filter (fun tile => !(corrupted.contains tile.path)) = t0 :: rest) :
    findBestTile corrupted target tiles =
      .ok (findBestAux target (t0, colorDistanceSq target t0.color) rest).1 := by
  simp only [findBestTile]
  rw [h]

/-- Any `ok` result of `findBestTile` is an element of the filtered valid
list: it is a candidate and its path is not in the corrupted set. -/
theorem findBestTile_ok_mem_valid (corrupted : List JStr) (target : Color)
    (tiles : List Tile) (res : Tile)
    (h : findBestTile corrupted target tiles = .ok res) :
    res ∈ tiles.filter (fun tile => !(corrupted.contains tile.path)) := by
  cases hv : tiles.filter (fun tile => !(corrupted.contains tile.path)) with
  | nil =>
    rw [findBestTile_eq_error corrupted target tiles hv] at h
    cases h
  | cons t0 rest =>
    rw [findBestTile_eq_ok corrupted target tiles t0 rest hv] at h
    set r := (findBestAux target (t0, colorDistanceSq target t0.color) rest).1 with hrdef
    have hres : res = r := (Except.ok.inj h).symm
    rcases findBestAux_spec target t0 rest with ⟨hr, -⟩ | ⟨l1, l2, hsplit, -, -, -⟩
    · rw [hres, ← hrdef] at *
      rw [hr]
      exact List.mem_cons_self t0 rest
    · rw [← hrdef] at hsplit
      rw [hres, hsplit]
      exact List.mem_cons_of_mem t0
        (List.mem_append_right l1 (List.mem_cons_self _ l2))

/-- The chosen tile's path is never in the corrupted set passed to
`findBestTile`. -/
theorem findBestTile_ok_not_corrupted (corrupted : List JStr) (target : Color)
    (tiles : List Tile) (res : Tile)
    (h : findBestTile corrupted target tiles = .ok res) :
    corrupted.contains res.path = false := by
  have hmem := List.of_mem_filter (findBestTile_ok_mem_valid corrupted target tiles res h)
  simpa using hmem

/-- `findBestTile` returns the no-valid-tiles error exactly when the
filtered candidate list is empty, never returns any other error, and
returns `ok` whenever some candidate survives the corrupted filter. -/
theorem findBestTile_error_iff (corrupted : List JStr) (target : Color) (tiles : List Tile) :
    (findBestTile corrupted target tiles = .error noValidTilesMsg ↔
      tiles.filter (fun tile => !(corrupted.contains tile.path)) = []) ∧
    (∀ e, findBestTile corrupted target tiles = .error e → e = noValidTilesMsg) ∧
    (tiles.filter (fun tile => !(corrupted.contains tile.path)) ≠ [] →
      ∃ res, findBestTile corrupted target tiles = .ok res) := by
  rcases hv : tiles.filter (fun tile => !(corrupted.contains tile.path)) with - | ⟨t0, rest⟩
  · have he := findBestTile_eq_error corrupted target tiles hv
    refine ⟨?_, ?_, ?_⟩
    · rw [he, hv]
      simp
    · intro e h
      rw [he] at h
      exact (Except.error.inj h).symm
    · intro hne
      exact absurd hv hne
  · have he := findBestTile_eq_ok corrupted target tiles t0 rest hv
    refine ⟨?_, ?_, ?_⟩
    · rw [he, hv]
      simp
    · intro e h
      rw [he] at h
      cases h
    · intro hne
      exact ⟨_, he⟩

/-- C8: `findBestTile` raises the "No valid tiles available" error iff its
candidate list is empty after removing corrupted entries, raises no other
error, and returns a tile normally whenever at least one candidate is not
corrupted. -/
theorem claim_C8_findBest_error_semantics :
    ∀ (corrupted : List JStr) (target : Color) (tiles : List Tile),
      (findBestTile corrupted target tiles = .error noValidTilesMsg ↔
        tiles.filter (fun tile => !(corrupted.contains tile.path)) = []) ∧
      (∀ e, findBestTile corrupted target tiles = .error e → e = noValidTilesMsg) ∧
      (∀ t ∈ tiles, corrupted.contains t.path = false →
        ∃ res, findBestTile corrupted target tiles = .ok res) := by
  intro corrupted target tiles
  obtain ⟨hiff, honly, hok⟩ := findBestTile_error_iff corrupted target tiles
  refine ⟨hiff, honly, fun t ht hnc => hok ?_⟩
  intro hempty
  have hnmem : t.path ∉ corrupted := by simpa using hnc
  have : t ∈ tiles.filter (fun tile => !(corrupted.contains tile.path)) :=
    List.mem_filter.mpr ⟨ht, by simp [hnmem]⟩
  rw [hempty] at this
  cases this

/-- Witness for C8: at a concrete corrupted set and candidate list, the
error case fires exactly on the all-corrupted list and the success case on
the list with one clean tile. -/
theorem claim_C8_witness :
    (findBestTile ["x".data] ⟨0, 0, 0⟩ [⟨"x".data, 5, 5, 5⟩] = .error noValidTilesMsg ↔
      List.filter (fun tile => !((["x".data] : List JStr).contains tile.path))
        [(⟨"x".data, 5, 5, 5⟩ : Tile)] = []) ∧
    (∀ e, findBestTile ["x".data] ⟨0, 0, 0⟩ [⟨"x".data, 5, 5, 5⟩] = .error e →
      e = noValidTilesMsg) ∧
    (∃ res, findBestTile ["x".data] ⟨0, 0, 0⟩ [⟨"x".data, 5, 5, 5⟩, ⟨"y".data, 1, 2, 3⟩] =
      .ok res) := by
  refine ⟨(claim_C8_findBest_error_semantics ["x".data] ⟨0, 0, 0⟩ [⟨"x".data, 5, 5, 5⟩]).1,
    (claim_C8_findBest_error_semantics ["x".data] ⟨0, 0, 0⟩ [⟨"x".data, 5, 5, 5⟩]).2.1,
    (claim_C8_findBest_error_semantics ["x".data] ⟨0, 0, 0⟩
      [⟨"x".data, 5, 5, 5⟩, ⟨"y".data, 1, 2, 3⟩]).2.2 ⟨"y".data, 1, 2, 3⟩ (by decide)
      (by decide)⟩

/-- `usedTiles.add(bestTile)` (JS `Set.add`): insert if not present. -/
def addUsed (usedTiles : List Tile) (t : Tile) : List Tile :=
  if usedTiles.contains t then usedTiles else t :: usedTiles

/-- `this.corruptedTiles.add(path)` (JS `Set.add`): insert if not present. -/
def addCorrupted (corrupted : List JStr) (p : JStr) : List JStr :=
  if corrupted.contains p then corrupted else p :: corrupted

/-- Target colour of cell `(x, y)` read from the downsampled input buffer
(source lines 666-671): `pixelIndex = (y * mosaicWidth + x) * 3` and the
three consecutive bytes are `r`, `g`, `b`. The raw buffer is modelled as a
total function from byte offset to value. -/
def targetColorAt (inputData : Nat → Int) (mosaicWidth x y : Nat) : Color :=
  ⟨inputData ((y * mosaicWidth + x) * 3),
   inputData ((y * mosaicWidth + x) * 3 + 1),
   inputData ((y * mosaicWidth + x) * 3 + 2)⟩

/-- Candidate selection for one cell (source lines 674-680): with reuse
allowed the whole corpus; otherwise the corpus minus already-used tiles,
falling back to the whole corpus when that filter comes out empty. -/
def selectAvailableTiles (tiles : List Tile) (allowReuse : Bool) (usedTiles : List Tile) :
    List Tile :=
  if allowReuse then tiles
  else
    if (tiles.filter (fun tile => !(usedTiles.contains tile))).isEmpty then tiles
    else tiles.filter (fun tile => !(usedTiles.contains tile))

/-- Inner `x` loop of the assignment phase of `generateMosaic` (source
lines 664-689): for each remaining cell of the row, pick the best tile for
the cell's target colour, record it as used when reuse is disallowed, and
collect the chosen tile paths. -/
def assignRowCells (corrupted : List JStr) (tiles : List Tile) (allowReuse : Bool)
    (inputData : Nat → Int) (mosaicWidth y : Nat) :
    List Nat → List Tile → Except JStr (List JStr × List Tile)
  | [], usedTiles => .ok ([], usedTiles)
  | x :: xs, usedTiles =>
    match findBestTile corrupted (targetColorAt inputData mosaicWidth x y)
        (selectAvailableTiles tiles allowReuse usedTiles) with
    | .error e => .error e
    | .ok bestTile =>
      match assignRowCells corrupted tiles allowReuse inputData mosaicWidth y xs
          (if allowReuse then usedTiles else addUsed usedTiles bestTile) with
      | .error e => .error e
      | .ok (row, u) => .ok (bestTile.path :: row, u)

/-- Outer `y` loop of the assignment phase (source lines 662-702),
threading the used-tiles set across rows and collecting rows of paths. -/
def assignGridRows (corrupted : List JStr) (tiles : List Tile) (allowReuse : Bool)
    (inputData : Nat → Int) (mosaicWidth : Nat) :
    List Nat → List Tile → Except JStr (List (List JStr) × List Tile)
  | [], usedTiles => .ok ([], usedTiles)
  | y :: ys, usedTiles =>
    match assignRowCells corrupted tiles allowReuse inputData mosaicWidth y
        (List.range mosaicWidth) usedTiles with
    | .error e => .error e
    | .ok (row, used2) =>
      match assignGridRows corrupted tiles allowReuse inputData mosaicWidth ys used2 with
      | .error e => .error e
      | .ok (rows, usedN) => .ok (row :: rows, usedN)

/-- The whole assignment phase of `generateMosaic`: the produced
`TileAssignment` (`tileImages` in the source) for a
`mosaicWidth × mosaicHeight` grid, starting from an empty used set. -/
def generateTileAssignment (corrupted : List JStr) (tiles : List Tile) (allowReuse : Bool)
    (inputData : Nat → Int) (mosaicWidth mosaicHeight : Nat) :
    Except JStr (List (List JStr) × List Tile) :=
  assignGridRows corrupted tiles allowReuse inputData mosaicWidth
    (List.range mosaicHeight) []

/-- Every path placed in a row by the assignment loop is outside the
corrupted set. -/
theorem assignRowCells_not_corrupted (corrupted : List JStr) (tiles : List Tile)
    (allowReuse : Bool) (inputData : Nat → Int) (mosaicWidth y : Nat) :
    ∀ (xs : List Nat) (used : List Tile) (row : List JStr) (used2 : List Tile),
      assignRowCells corrupted tiles allowReuse inputData mosaicWidth y xs used =
        .ok (row, used2) →
      ∀ p ∈ row, corrupted.contains p = false := by
  intro xs
  induction xs with
  | nil =>
    intro used row used2 h p hp
    obtain ⟨hrow, -⟩ := Prod.mk.injEq .. ▸ (Except.ok.inj h)
    rw [← hrow] at hp
    cases hp
  | cons x xs ih =>
    intro used row used2 h p hp
    simp only [assignRowCells] at h
    split at h
    · cases h
    · rename_i bestTile hbt
      split at h
      · cases h
      · rename_i row1 u1 hrec
        obtain ⟨hrow, -⟩ := Prod.mk.injEq .. ▸ (Except.ok.inj h)
        rw [← hrow] at hp
        rcases List.mem_cons.mp hp with rfl | hp1
        · exact findBestTile_ok_not_corrupted _ _ _ _ hbt
        · exact ih _ _ _ hrec p hp1

/-- Every path in every row of an assignment grid is outside the corrupted
set. -/
theorem assignGridRows_not_corrupted (corrupted : List JStr) (tiles : List Tile)
    (allowReuse : Bool) (inputData : Nat → Int) (mosaicWidth : Nat) :
    ∀ (ys : List Nat) (used : List Tile) (rows : List (List JStr)) (used2 : List Tile),
      assignGridRows corrupted tiles allowReuse inputData mosaicWidth ys used =
        .ok (rows, used2) →
      ∀ row ∈ rows, ∀ p ∈ row, corrupted.contains p = false := by
  intro ys
  induction ys with
  | nil =>
    intro used rows used2 h row hrow
    obtain ⟨hr, -⟩ := Prod.mk.injEq .. ▸ (Except.ok.inj h)
    rw [← hr] at hrow
    cases hrow
  | cons y ys ih =>
    intro used rows used2 h row hrow p hp
    simp only [assignGridRows] at h
    split at h
    · cases h
    · rename_i row1 u1 hr1
      split at h
      · cases h
      · rename_i rows2 u2 hrec
        obtain ⟨hr, -⟩ := Prod.mk.injEq .. ▸ (Except.ok.inj h)
        rw [← hr] at hrow
        rcases List.mem_cons.mp hrow with rfl | hrow2
        · exact assignRowCells_not_corrupted _ _ _ _ _ _ _ _ _ _ hr1 p hp
        · exact ih _ _ _ hrec row hrow2 p hp

/-- Error thrown during base-mosaic compositing when, after blacklisting a
failed tile, no usable tile remains (source lines 762-766). -/
def noTilesRemainingMsg : JStr := "No valid tiles remaining after filtering corrupted tiles".data

/-- One cell of the base-mosaic compositor (source lines 731-780). Decoding
is abstracted as `decodeTile : path ↦ raw buffer or error`. On decode
failure the tile path is added to the corrupted set, the cell's target
colour is recomputed from the extracted input data, a replacement is chosen
from the corpus filtered against the corrupted set (failing when that
filter is empty), and the replacement's decoded pixels are substituted; a
failure while decoding the replacement is not caught and propagates. -/
def compositeCellBase (decodeTile : JStr → Except JStr (List Nat)) (corrupted : List JStr)
    (tiles : List Tile) (inputData : Nat → Int) (mosaicWidth x y : Nat) (tilePath : JStr) :
    Except JStr (List Nat × List JStr) :=
  match decodeTile tilePath with
  | .ok tileBuffer => .ok (tileBuffer, corrupted)
  | .error _ =>
    let corrupted2 := addCorrupted corrupted tilePath
    let availableTiles := tiles.filter (fun tile => !(corrupted2.contains tile.path))
    if availableTiles.isEmpty then .error noTilesRemainingMsg
    else
      match findBestTile corrupted2 (targetColorAt inputData mosaicWidth x y)
          availableTiles with
      | .error e => .error e
      | .ok replacementTile =>
        match decodeTile replacementTile.path with
        | .ok buf => .ok (buf, corrupted2)
        | .error e => .error e

/-- One cell of the zoom-step compositor (source lines 419-436): on decode
failure the cell becomes a solid gray tile (`Buffer.alloc(size*size*3,
128)`); nothing is recorded and no replacement is looked up. -/
def compositeCellZoom (decodeTile : JStr → Except JStr (List Nat)) (newTileSize : Nat)
    (tilePath : JStr) : List Nat :=
  match decodeTile tilePath with
  | .ok tileBuffer => tileBuffer
  | .error _ => List.replicate (newTileSize * newTileSize * 3) 128

/-- In the failure branch of the base compositor, a successful outcome
always goes through a replacement chosen by `findBestTile` against the
enlarged corrupted set, and that replacement is itself not corrupted. -/
theorem compositeCellBase_replacement (decodeTile : JStr → Except JStr (List Nat))
    (corrupted : List JStr) (tiles : List Tile) (inputData : Nat → Int)
    (mosaicWidth x y : Nat) (tilePath : JStr) (e : JStr) (buf : List Nat)
    (corrupted2 : List JStr)
    (hdec : decodeTile tilePath = .error e)
    (hcc : compositeCellBase decodeTile corrupted tiles inputData mosaicWidth x y tilePath =
      .ok (buf, corrupted2)) :
    corrupted2 = addCorrupted corrupted tilePath ∧
    ∃ replacementTile,
      findBestTile (addCorrupted corrupted tilePath)
        (targetColorAt inputData mosaicWidth x y)
        (tiles.filter
          (fun tile => !((addCorrupted corrupted tilePath).contains tile.path))) =
        .ok replacementTile ∧
      (addCorrupted corrupted tilePath).contains replacementTile.path = false ∧
      decodeTile replacementTile.path = .ok buf := by
  simp only [compositeCellBase, hdec] at hcc
  split at hcc
  · cases hcc
  · split at hcc
    · cases hcc
    · rename_i replacementTile hrep
      split at hcc
      · rename_i buf2 hdec2
        obtain ⟨hb, hc⟩ := Prod.mk.injEq .. ▸ (Except.ok.inj hcc)
        subst hb
        exact ⟨hc.symm, replacementTile, hrep,
          findBestTile_ok_not_corrupted _ _ _ _ hrep, hdec2⟩
      · cases hcc

/-- C2: the path chosen for a cell is never in the corrupted set at the
moment of selection — `findBestTile` filters corrupted paths before
scanning (so its result is never corrupted), hence every cell of every
assignment grid holds a non-corrupted path, and the replacement selected
during base compositing is drawn from the corpus filtered against the
(just enlarged) corrupted set. -/
theorem claim_C2_corrupted_exclusion :
    (∀ (corrupted : List JStr) (target : Color) (tiles : List Tile) (res : Tile),
      findBestTile corrupted target tiles = .ok res →
      corrupted.contains res.path = false) ∧
    (∀ (corrupted : List JStr) (tiles : List Tile) (allowReuse : Bool)
      (inputData : Nat → Int) (mosaicWidth mosaicHeight : Nat)
      (rows : List (List JStr)) (used2 : List Tile),
      generateTileAssignment corrupted tiles allowReuse inputData mosaicWidth mosaicHeight =
        .ok (rows, used2) →
      ∀ row ∈ rows, ∀ p ∈ row, corrupted.contains p = false) ∧
    (∀ (decodeTile : JStr → Except JStr (List Nat)) (corrupted : List JStr)
      (tiles : List Tile) (inputData : Nat → Int) (mosaicWidth x y : Nat)
      (tilePath e : JStr) (buf : List Nat) (corrupted2 : List JStr),
      decodeTile tilePath = .error e →
      compositeCellBase decodeTile corrupted tiles inputData mosaicWidth x y tilePath =
        .ok (buf, corrupted2) →
      ∃ replacementTile,
        findBestTile (addCorrupted corrupted tilePath)
          (targetColorAt inputData mosaicWidth x y)
          (tiles.filter
            (fun tile => !((addCorrupted corrupted tilePath).contains tile.path))) =
          .ok replacementTile ∧
        (addCorrupted corrupted tilePath).contains replacementTile.path = false) := by
  refine ⟨findBestTile_ok_not_corrupted, ?_, ?_⟩
  · intro corrupted tiles allowReuse inputData mosaicWidth mosaicHeight rows used2 h
    exact assignGridRows_not_corrupted corrupted tiles allowReuse inputData mosaicWidth
      (List.range mosaicHeight) [] rows used2 h
  · intro decodeTile corrupted tiles inputData mosaicWidth x y tilePath e buf corrupted2
      hdec hcc
    obtain ⟨-, replacementTile, hrep, hnc, -⟩ :=
      compositeCellBase_replacement decodeTile corrupted tiles inputData mosaicWidth x y
        tilePath e buf corrupted2 hdec hcc
    exact ⟨replacementTile, hrep, hnc⟩

/-- Witness for C2: a two-tile corpus with one corrupted path; the chosen
tile's path is outside the corrupted set, both for a direct `findBestTile`
call and for a compositing replacement after a decode failure. -/
theorem claim_C2_witness :
    ((["x".data] : List JStr).contains ("y".data) = false) ∧
    (∃ replacementTile,
      findBestTile (addCorrupted [] ("bad".data)) (targetColorAt (fun _ => 0) 1 0 0)
        (List.filter
          (fun tile => !((addCorrupted [] ("bad".data)).contains tile.path))
          [(⟨"good".data, 0, 0, 0⟩ : Tile)]) = .ok replacementTile ∧
      (addCorrupted [] ("bad".data)).contains replacementTile.path = false) := by
  constructor
  · exact claim_C2_corrupted_exclusion.1 ["x".data] ⟨0, 0, 0⟩
      [⟨"x".data, 5, 5, 5⟩, ⟨"y".data, 1, 2, 3⟩] ⟨"y".data, 1, 2, 3⟩ rfl
  · exact claim_C2_corrupted_exclusion.2.2
      (fun q => if q = "good".data then .ok [1, 2, 3] else .error "decode".data)
      [] [⟨"good".data, 0, 0, 0⟩] (fun _ => 0) 1 0 0 ("bad".data) ("decode".data)
      [1, 2, 3] (addCorrupted [] ("bad".data)) rfl rfl

/-- When no candidate path is corrupted, `findBestTile`'s internal filter
keeps the whole list. -/
theorem filter_corrupted_eq_self (corrupted : List JStr) (cands : List Tile)
    (hall : ∀ t ∈ cands, corrupted.contains t.path = false) :
    cands.filter (fun tile => !(corrupted.contains tile.path)) = cands :=
  List.filter_eq_self.mpr (fun t ht => by simpa using hall t ht)

/-- `findBestTile` succeeds on any non-empty list of non-corrupted
candidates. -/
theorem findBestTile_ok_of_all_valid (corrupted : List JStr) (target : Color)
    (cands : List Tile) (hne : cands ≠ [])
    (hall : ∀ t ∈ cands, corrupted.contains t.path = false) :
    ∃ res, findBestTile corrupted target cands = .ok res := by
  refine (findBestTile_error_iff corrupted target cands).2.2 ?_
  rw [filter_corrupted_eq_self corrupted cands hall]
  exact hne

/-- Candidates selected for a cell always come from the corpus. -/
theorem selectAvailableTiles_subset (tiles : List Tile) (allowReuse : Bool)
    (usedTiles : List Tile) :
    ∀ t ∈ selectAvailableTiles tiles allowReuse usedTiles, t ∈ tiles := by
  intro t ht
  simp only [selectAvailableTiles] at ht
  split at ht
  · exact ht
  · split at ht
    · exact ht
    · exact List.mem_of_mem_filter ht

/-- Candidate selection never returns an empty list when the corpus is
non-empty: the empty used-filter falls back to the whole corpus. -/
theorem selectAvailableTiles_ne_nil (tiles : List Tile) (allowReuse : Bool)
    (usedTiles : List Tile) (h : tiles ≠ []) :
    selectAvailableTiles tiles allowReuse usedTiles ≠ [] := by
  simp only [selectAvailableTiles]
  split
  · exact h
  · split
    · exact h
    · rename_i hne
      simpa [List.isEmpty_iff] using hne

/-- The row-assignment loop succeeds on every cell list when the corpus is
non-empty and free of corrupted paths. -/
theorem assignRowCells_ok (corrupted : List JStr) (tiles : List Tile) (allowReuse : Bool)
    (inputData : Nat → Int) (mosaicWidth y : Nat) (htiles : tiles ≠ [])
    (hall : ∀ t ∈ tiles, corrupted.contains t.path = false) :
    ∀ (xs : List Nat) (used : List Tile),
      ∃ out, assignRowCells corrupted tiles allowReuse inputData mosaicWidth y xs used =
        .ok out := by
  intro xs
  induction xs with
  | nil => exact fun used => ⟨([], used), rfl⟩
  | cons x xs ih =>
    intro used
    obtain ⟨res, hres⟩ := findBestTile_ok_of_all_valid corrupted
      (targetColorAt inputData mosaicWidth x y)
      (selectAvailableTiles tiles allowReuse used)
      (selectAvailableTiles_ne_nil tiles allowReuse used htiles)
      (fun t ht => hall t (selectAvailableTiles_subset tiles allowReuse used t ht))
    obtain ⟨⟨row, u⟩, hrec⟩ := ih (if allowReuse then used else addUsed used res)
    refine ⟨(res.path :: row, u), ?_⟩
    simp only [assignRowCells, hres, hrec]

/-- The grid-assignment loop succeeds on every row list when the corpus is
non-empty and free of corrupted paths. -/
theorem assignGridRows_ok (corrupted : List JStr) (tiles : List Tile) (allowReuse : Bool)
    (inputData : Nat → Int) (mosaicWidth : Nat) (htiles : tiles ≠ [])
    (hall : ∀ t ∈ tiles, corrupted.contains t.path = false) :
    ∀ (ys : List Nat) (used : List Tile),
      ∃ out, assignGridRows corrupted tiles allowReuse inputData mosaicWidth ys used =
        .ok out := by
  intro ys
  induction ys with
  | nil => exact fun used => ⟨([], used), rfl⟩
  | cons y ys ih =>
    intro used
    obtain ⟨⟨row, u1⟩, hrow⟩ := assignRowCells_ok corrupted tiles allowReuse inputData
      mosaicWidth y htiles hall (List.range mosaicWidth) used
    obtain ⟨⟨rows, u2⟩, hrec⟩ := ih u1
    refine ⟨(row :: rows, u2), ?_⟩
    simp only [assignGridRows, hrow, hrec]

/-- C4: with reuse disallowed, a cell whose used-tile exclusion would leave
zero candidates gets the full corpus instead, and consequently the
assignment phase completes for a grid of any size (in particular with more
cells than corpus tiles) as long as the corpus has at least one usable
(non-corrupted) tile. -/
theorem claim_C4_no_reuse_best_effort :
    (∀ (tiles usedTiles : List Tile),
      tiles.filter (fun tile => !(usedTiles.contains tile)) = [] →
      selectAvailableTiles tiles false usedTiles = tiles) ∧
    (∀ (corrupted : List JStr) (tiles : List Tile) (inputData : Nat → Int)
      (mosaicWidth mosaicHeight : Nat),
      tiles ≠ [] → (∀ t ∈ tiles, corrupted.contains t.path = false) →
      ∃ out, generateTileAssignment corrupted tiles false inputData
        mosaicWidth mosaicHeight = .ok out) := by
  constructor
  · intro tiles usedTiles hempty
    simp only [selectAvailableTiles, hempty]
    simp
  · intro corrupted tiles inputData mosaicWidth mosaicHeight htiles hall
    exact assignGridRows_ok corrupted tiles false inputData mosaicWidth htiles hall
      (List.range mosaicHeight) []

/-- Witness for C4: a corpus of one tile and a 2×2 grid (four cells, more
than one tile): the fallback keeps the candidate list full and assignment
completes. -/
theorem claim_C4_witness :
    (selectAvailableTiles [⟨"a".data, 0, 0, 0⟩] false [⟨"a".data, 0, 0, 0⟩] =
      [⟨"a".data, 0, 0, 0⟩]) ∧
    (∃ out, generateTileAssignment [] [⟨"a".data, 0, 0, 0⟩] false (fun _ => 7) 2 2 =
      .ok out) := by
  constructor
  · exact claim_C4_no_reuse_best_effort.1 [⟨"a".data, 0, 0, 0⟩] [⟨"a".data, 0, 0, 0⟩]
      (by decide)
  · exact claim_C4_no_reuse_best_effort.2 [] [⟨"a".data, 0, 0, 0⟩] (fun _ => 7) 2 2
      (by decide) (by decide)

/-- C10: matching is deterministic — `findBestTile` and the whole
assignment phase are functions of their inputs; equal corpora, corrupted
sets, flags and extracted pixel data give identical results on repeated
runs. -/
theorem claim_C10_determinism :
    (∀ (corrupted corrupted2 : List JStr) (target target2 : Color)
      (tiles tiles2 : List Tile),
      corrupted = corrupted2 → target = target2 → tiles = tiles2 →
      findBestTile corrupted target tiles = findBestTile corrupted2 target2 tiles2) ∧
    (∀ (corrupted corrupted2 : List JStr) (tiles tiles2 : List Tile)
      (allowReuse allowReuse2 : Bool) (inputData inputData2 : Nat → Int)
      (mosaicWidth mosaicWidth2 mosaicHeight mosaicHeight2 : Nat),
      corrupted = corrupted2 → tiles = tiles2 → allowReuse = allowReuse2 →
      inputData = inputData2 → mosaicWidth = mosaicWidth2 →
      mosaicHeight = mosaicHeight2 →
      generateTileAssignment corrupted tiles allowReuse inputData mosaicWidth
        mosaicHeight =
      generateTileAssignment corrupted2 tiles2 allowReuse2 inputData2 mosaicWidth2
        mosaicHeight2) := by
  constructor
  · intro c c2 t t2 l l2 hc ht hl
    rw [hc, ht, hl]
  · intro c c2 l l2 a a2 f f2 w w2 hgt hgt2 hc hl ha hf hw hh
    rw [hc, hl, ha, hf, hw, hh]

/-- Witness for C10: two textually identical runs on a concrete corpus
yield the same value. -/
theorem claim_C10_witness :
    (findBestTile [] ⟨90, 90, 90⟩ exampleTiles = findBestTile [] ⟨90, 90, 90⟩ exampleTiles) ∧
    (generateTileAssignment [] exampleTiles true (fun _ => 3) 2 2 =
      generateTileAssignment [] exampleTiles true (fun _ => 3) 2 2) :=
  ⟨claim_C10_determinism.1 [] [] ⟨90, 90, 90⟩ ⟨90, 90, 90⟩ exampleTiles exampleTiles
    rfl rfl rfl,
   claim_C10_determinism.2 [] [] exampleTiles exampleTiles true true
    (fun _ => 3) (fun _ => 3) 2 2 2 2 rfl rfl rfl rfl rfl rfl⟩

/-- Counterexample for C3: with a decoder that always fails (so no
replacement tile could possibly be decoded either) and an arbitrary cell,
the zoom-step compositor does not fail and selects no replacement — it
substitutes a solid gray `2×2×3` buffer of value 128 for the cell,
contradicting the claim that both compositors blacklist the tile, select a
replacement, and fail when no replacement is available. -/
theorem claim_C3_counterexample :
    compositeCellZoom (fun _ => .error "decode failed".data) 2 ("t.png".data) =
      List.replicate 12 128 := rfl

/-- C3 (amended): only the base-mosaic compositor performs the
blacklist-and-replace protocol — on decode failure it fails with the
no-tiles-remaining error when the corpus filtered against the enlarged
corrupted set is empty, and otherwise substitutes the decoded pixels of the
`findBestTile` replacement while returning the enlarged corrupted set; the
zoom-step compositor instead substitutes a solid gray tile (value 128) for
the failed cell, without touching any corrupted set and without failing. -/
theorem claim_C3_compositor_failargs :
    (∀ (decodeTile : JStr → Except JStr (List Nat)) (corrupted : List JStr)
      (tiles : List Tile) (inputData : Nat → Int) (mosaicWidth x y : Nat)
      (tilePath e : JStr),
      decodeTile tilePath = .error e →
      ((tiles.filter
          (fun tile => !((addCorrupted corrupted tilePath).contains tile.path))).isEmpty =
            true →
        compositeCellBase decodeTile corrupted tiles inputData mosaicWidth x y tilePath =
          .error noTilesRemainingMsg) ∧
      (∀ (replacementTile : Tile) (buf : List Nat),
        findBestTile (addCorrupted corrupted tilePath)
          (targetColorAt inputData mosaicWidth x y)
          (tiles.filter
            (fun tile => !((addCorrupted corrupted tilePath).contains tile.path))) =
          .ok replacementTile →
        decodeTile replacementTile.path = .ok buf →
        compositeCellBase decodeTile corrupted tiles inputData mosaicWidth x y tilePath =
          .ok (buf, addCorrupted corrupted tilePath))) ∧
    (∀ (decodeTile : JStr → Except JStr (List Nat)) (newTileSize : Nat)
      (tilePath e : JStr),
      decodeTile tilePath = .error e →
      compositeCellZoom decodeTile newTileSize tilePath =
        List.replicate (newTileSize * newTileSize * 3) 128) := by
  constructor
  · intro decodeTile corrupted tiles inputData mosaicWidth x y tilePath e hdec
    constructor
    · intro hempty
      simp only [compositeCellBase, hdec, hempty]
      simp
    · intro replacementTile buf hrep hdecrep
      have havail : (tiles.filter
          (fun tile =>
            !((addCorrupted corrupted tilePath).contains tile.path))).isEmpty = false := by
        cases hav : tiles.filter
            (fun tile => !((addCorrupted corrupted tilePath).contains tile.path)) with
        | nil =>
          rw [hav] at hrep
          simp [findBestTile] at hrep
        | cons t0 rest => rfl
      simp only [compositeCellBase, hdec, havail, hrep, hdecrep]
      simp
  · intro decodeTile newTileSize tilePath e hdec
    simp only [compositeCellZoom, hdec]

/-- Witness for C3 (amended): a decoder succeeding only on `"good"`; the
base compositor fails on an empty corpus, substitutes the replacement's
pixels on a one-good-tile corpus, and the zoom compositor produces the
gray tile. -/
theorem claim_C3_witness :
    (compositeCellBase (fun q => if q = "good".data then .ok [9, 9, 9] else .error "e".data)
      [] [] (fun _ => 0) 1 0 0 ("bad".data) = .error noTilesRemainingMsg) ∧
    (compositeCellBase (fun q => if q = "good".data then .ok [9, 9, 9] else .error "e".data)
      [] [⟨"good".data, 0, 0, 0⟩] (fun _ => 0) 1 0 0 ("bad".data) =
      .ok ([9, 9, 9], addCorrupted [] ("bad".data))) ∧
    (compositeCellZoom (fun q => if q = "good".data then .ok [9, 9, 9] else .error "e".data)
      1 ("bad".data) = List.replicate 3 128) := by
  refine ⟨?_, ?_, ?_⟩
  · exact ((claim_C3_compositor_failargs.1
      (fun q => if q = "good".data then .ok [9, 9, 9] else .error "e".data)
      [] [] (fun _ => 0) 1 0 0 ("bad".data) ("e".data) rfl).1) rfl
  · exact ((claim_C3_compositor_failargs.1
      (fun q => if q = "good".data then .ok [9, 9, 9] else .error "e".data)
      [] [⟨"good".data, 0, 0, 0⟩] (fun _ => 0) 1 0 0 ("bad".data) ("e".data) rfl).2)
      ⟨"good".data, 0, 0, 0⟩ [9, 9, 9] rfl rfl
  · exact claim_C3_compositor_failargs.2
      (fun q => if q = "good".data then .ok [9, 9, 9] else .error "e".data)
      1 ("bad".data) ("e".data) rfl

/-- `Math.round` on a JS number (here an exact rational): floor of
`x + 1/2`. -/
def jsRound (q : ℚ) : Int := ⌊q + 1 / 2⌋

/-- JS truthiness-based defaulting `v || d` for an option holding an
integer: `null` and `0` are falsy and select the default. -/
def jsOrInt (v : Option Int) (d : Int) : Int :=
  match v with
  | some w => if w = 0 then d else w
  | none => d

/-- Grid width (source lines 517-519): the explicit tile count if provided
(and truthy), else `Math.round(outputWidth / tileSize)`. -/
def computeMosaicWidth (mosaicWidth : Option Int) (outputWidth tileSize : ℚ) : Int :=
  jsOrInt mosaicWidth (jsRound (outputWidth / tileSize))

/-- Grid height (source lines 641-645): the explicit tile count if provided
(and truthy); else `Math.round(outputHeight / tileSize)` when an output
pixel height is provided (and truthy); else
`Math.round(finalMosaicWidth * aspectRatio)` with
`aspectRatio = inputHeight / inputWidth`. -/
def computeMosaicHeight (mosaicHeight outputHeight : Option Int) (tileSize : ℚ)
    (finalMosaicWidth : Int) (inputHeight inputWidth : ℚ) : Int :=
  jsOrInt mosaicHeight
    (match outputHeight with
    | some h =>
      if h = 0 then jsRound ((finalMosaicWidth : ℚ) * (inputHeight / inputWidth))
      else jsRound ((h : ℚ) / tileSize)
    | none => jsRound ((finalMosaicWidth : ℚ) * (inputHeight / inputWidth)))

/-- C9: with no explicit grid width the width is
`round(outputWidth / tileSize)`; with neither explicit grid height nor an
output pixel height the height is `round(gridWidth * (inputHeight /
inputWidth))`; in particular output width 1200 at tile size 6 gives grid
width 200 and aspect ratio 1/2 then gives grid height 100. -/
theorem claim_C9_grid_dimensions :
    (∀ (outputWidth tileSize : ℚ),
      computeMosaicWidth none outputWidth tileSize = jsRound (outputWidth / tileSize)) ∧
    (∀ (tileSize : ℚ) (w : Int) (inputHeight inputWidth : ℚ),
      computeMosaicHeight none none tileSize w inputHeight inputWidth =
        jsRound ((w : ℚ) * (inputHeight / inputWidth))) ∧
    computeMosaicWidth none 1200 6 = 200 ∧
    computeMosaicHeight none none 6 (computeMosaicWidth none 1200 6) 1 2 = 100 := by
  have hw : computeMosaicWidth none 1200 6 = 200 := by
    simp only [computeMosaicWidth, jsOrInt, jsRound]
    rw [Int.floor_eq_iff]
    norm_num
  refine ⟨fun _ _ => rfl, fun _ _ _ _ => rfl, hw, ?_⟩
  rw [hw]
  simp only [computeMosaicHeight, jsOrInt, jsRound]
  rw [Int.floor_eq_iff]
  norm_num

/-- Tile pixel size at a zoom step (source lines 317-319):
`Math.round(baseTileSize * Math.pow(1 / zoomFactor, zoomStep))`. -/
def zoomTileSize (baseTileSize : Int) (zoomFactor : ℚ) (zoomStep : Nat) : Int :=
  jsRound ((baseTileSize : ℚ) * (1 / zoomFactor) ^ zoomStep)

/-- One output frame of the infinite-zoom sequence: its global frame
number, its output file name, and the tile pixel size it is rendered at. -/
structure Frame where
  number : Nat
  name : JStr
  tileSize : Int
deriving DecidableEq, Repr

/-- Decimal digit character for `n < 10`. -/
def digitChar (n : Nat) : Char := Char.ofNat (48 + n)

/-- Decimal digits of a natural number, structurally recursive on a fuel
bound (any fuel above the value itself is enough since `n / 10 < n`). -/
def natToCharsCore : Nat → Nat → JStr
  | 0, _ => []
  | fuel + 1, n =>
    if n < 10 then [digitChar n]
    else natToCharsCore fuel (n / 10) ++ [digitChar (n % 10)]

/-- Decimal digits of a natural number, as produced by JS number→string
conversion for non-negative integers. -/
def natToChars (n : Nat) : JStr := natToCharsCore (n + 1) n

/-- `s.padStart(4, '0')`: left-pad with `'0'` up to length 4. -/
def padStart4 (s : JStr) : JStr :=
  if s.length < 4 then List.replicate (4 - s.length) '0' ++ s else s

/-- Output file name for global frame `n` (source lines 292-293 / 308-309):
the base output path, `_`, the frame number zero-padded to at least 4
digits, then the output extension. -/
def frameFileName (base ext : JStr) (n : Nat) : JStr :=
  base ++ '_' :: (padStart4 (natToChars n) ++ ext)

/-- The frames of one iteration of `generateInfiniteZoomMosaic` starting at
global frame counter `g` (source lines 286-348): one base mosaic frame
numbered `g+1`, then `zoomSteps` zoom frames numbered `g+1+k` rendered at
`zoomTileSize` for step `k`. -/
def iterationFrames (baseTileSize : Int) (zoomFactor : ℚ) (base ext : JStr)
    (zoomSteps g : Nat) : List Frame :=
  ⟨g + 1, frameFileName base ext (g + 1), baseTileSize⟩ ::
  (List.range' 1 zoomSteps).map (fun k =>
    ⟨g + 1 + k, frameFileName base ext (g + 1 + k),
      zoomTileSize baseTileSize zoomFactor k⟩)

/-- C6: the tile pixel size used at zoom step `k` (1-indexed) is
`round(baseTileSize * (1/zoomFactor)^k)` — definitionally for
`zoomTileSize` and positionally for the frame rendered at index `k` of an
iteration — and concretely 44 at `k=1` and 49 at `k=2` for base size 40 and
factor 9/10. -/
theorem claim_C6_zoom_tile_size :
    (∀ (baseTileSize : Int) (zoomFactor : ℚ) (k : Nat),
      zoomTileSize baseTileSize zoomFactor k =
        jsRound ((baseTileSize : ℚ) * (1 / zoomFactor) ^ k)) ∧
    (∀ (baseTileSize : Int) (zoomFactor : ℚ) (base ext : JStr) (zoomSteps g k : Nat),
      1 ≤ k → k ≤ zoomSteps →
      (iterationFrames baseTileSize zoomFactor base ext zoomSteps g).get? k =
        some ⟨g + 1 + k, frameFileName base ext (g + 1 + k),
          zoomTileSize baseTileSize zoomFactor k⟩) ∧
    zoomTileSize 40 (9 / 10) 1 = 44 ∧
    zoomTileSize 40 (9 / 10) 2 = 49 := by
  refine ⟨fun _ _ _ => rfl, ?_, ?_, ?_⟩
  · intro baseTileSize zoomFactor base ext zoomSteps g k hk1 hkS
    obtain ⟨j, rfl⟩ : ∃ j, k = j + 1 := ⟨k - 1, by omega⟩
    have hj : j < zoomSteps := by omega
    simp only [iterationFrames, List.get?_cons_succ, List.get?_map]
    rw [List.get?_range' 1 1 hj]
    simp only [Option.map_some', one_mul]
    have hjk : 1 + j = j + 1 := Nat.add_comm 1 j
    rw [hjk]
  · simp only [zoomTileSize, jsRound]
    rw [Int.floor_eq_iff]
    norm_num
  · simp only [zoomTileSize, jsRound]
    rw [Int.floor_eq_iff]
    norm_num

/-- Witness for C6: the frame at index 1 of an iteration with 8 zoom steps
is the first zoom frame, rendered at `zoomTileSize`, which for base 40 and
factor 9/10 is 44 pixels. -/
theorem claim_C6_witness :
    ((iterationFrames 40 (9 / 10) "f".data ".png".data 8 0).get? 1 =
      some ⟨2, frameFileName "f".data ".png".data 2, zoomTileSize 40 (9 / 10) 1⟩) ∧
    zoomTileSize 40 (9 / 10) 1 = 44 :=
  ⟨claim_C6_zoom_tile_size.2.1 40 (9 / 10) "f".data ".png".data 8 0 1 (by decide)
    (by decide),
   claim_C6_zoom_tile_size.2.2.1⟩

/-- The frame-producing skeleton of `generateInfiniteZoomMosaic` with
`maxIterations` set (source lines 281-352): starting from global frame
counter `g = 0`, while the JS guard
`globalFrameNumber / (zoomSteps + 1) < maxIterations` holds (real division,
modelled exactly over ℚ), emit one iteration's frames (one mosaic plus
`zoomSteps` zoom steps, incrementing the counter once per frame) and loop. -/
def zoomSequenceFrames (baseTileSize : Int) (zoomFactor : ℚ) (base ext : JStr)
    (zoomSteps maxIterations : Nat) (g : Nat) : List Frame :=
  if h : (g : ℚ) / ((zoomSteps : ℚ) + 1) < (maxIterations : ℚ) then
    iterationFrames baseTileSize zoomFactor base ext zoomSteps g ++
      zoomSequenceFrames baseTileSize zoomFactor base ext zoomSteps maxIterations
        (g + 1 + zoomSteps)
  else []
termination_by maxIterations * (zoomSteps + 1) - g
decreasing_by
  have hg : g < maxIterations * (zoomSteps + 1) := by
    rw [div_lt_iff (by positivity)] at h
    exact_mod_cast h
  omega

/-- The JS real-division loop guard is equivalent to the integer condition
`floor(g / (zoomSteps+1)) < maxIterations`. -/
theorem zoomGuard_iff (zoomSteps maxIterations g : Nat) :
    (((g : ℚ) / ((zoomSteps : ℚ) + 1) < (maxIterations : ℚ)) ↔
      g / (zoomSteps + 1) < maxIterations) := by
  rw [div_lt_iff (by positivity), Nat.div_lt_iff_lt_mul (Nat.succ_pos zoomSteps)]
  constructor
  · intro h
    exact_mod_cast h
  · intro h
    exact_mod_cast h

/-- The frame numbers of one iteration starting at counter `g` are exactly
`g+1, …, g+1+zoomSteps`. -/
theorem iterationFrames_map_number (baseTileSize : Int) (zoomFactor : ℚ)
    (base ext : JStr) (zoomSteps g : Nat) :
    (iterationFrames baseTileSize zoomFactor base ext zoomSteps g).map Frame.number =
      List.range' (g + 1) (zoomSteps + 1) := by
  have hmap : List.map (fun k => g + 1 + k) (List.range' 1 zoomSteps) =
      List.range' (g + 2) zoomSteps := by
    have h := List.map_add_range' (g + 1) 1 zoomSteps 1
    simpa using h
  simp only [iterationFrames, List.map_cons, List.map_map]
  rw [List.range'_succ]
  refine congrArg (List.cons (g + 1)) ?_
  rw [← hmap]
  rfl

/-- Every frame of an iteration is named from its own frame number. -/
theorem iterationFrames_names (baseTileSize : Int) (zoomFactor : ℚ) (base ext : JStr)
    (zoomSteps g : Nat) :
    ∀ f ∈ iterationFrames baseTileSize zoomFactor base ext zoomSteps g,
      f.name = frameFileName base ext f.number := by
  intro f hf
  simp only [iterationFrames, List.mem_cons, List.mem_map] at hf
  rcases hf with rfl | ⟨k, hk, rfl⟩
  · rfl
  · rfl

/-- Main invariant of the zoom-sequence loop: starting `d` iterations
before the end (counter at `(maxIterations - d) * (zoomSteps + 1)`), the
remaining frames are numbered consecutively up to
`maxIterations * (zoomSteps + 1)` and named from their numbers. -/
theorem zoomSequenceFrames_spec_aux (baseTileSize : Int) (zoomFactor : ℚ)
    (base ext : JStr) (zoomSteps maxIterations : Nat) :
    ∀ (d g : Nat), g = (maxIterations - d) * (zoomSteps + 1) → d ≤ maxIterations →
      ((zoomSequenceFrames baseTileSize zoomFactor base ext zoomSteps maxIterations g).map
        Frame.number = List.range' (g + 1) (d * (zoomSteps + 1))) ∧
      (∀ f ∈ zoomSequenceFrames baseTileSize zoomFactor base ext zoomSteps maxIterations g,
        f.name = frameFileName base ext f.number) := by
  intro d
  induction d with
  | zero =>
    intro g hg hd
    have hg2 : g = maxIterations * (zoomSteps + 1) := by simpa using hg
    subst hg2
    have hguard : ¬ (((maxIterations * (zoomSteps + 1) : Nat) : ℚ) /
        ((zoomSteps : ℚ) + 1) < (maxIterations : ℚ)) := by
      rw [div_lt_iff (by positivity)]
      push_cast
      exact lt_irrefl _
    rw [zoomSequenceFrames, dif_neg hguard]
    exact ⟨by simp, by simp⟩
  | succ d ih =>
    intro g hg hd
    have hgM : g < maxIterations * (zoomSteps + 1) := by
      rw [hg]
      exact (Nat.mul_lt_mul_right (Nat.succ_pos zoomSteps)).mpr (by omega)
    have hguard : ((g : ℚ) / ((zoomSteps : ℚ) + 1) < (maxIterations : ℚ)) := by
      rw [div_lt_iff (by positivity)]
      exact_mod_cast hgM
    have hg2 : g + 1 + zoomSteps = (maxIterations - d) * (zoomSteps + 1) := by
      rw [hg, show maxIterations - d = (maxIterations - (d + 1)) + 1 from by omega]
      ring
    obtain ⟨ihnum, ihname⟩ := ih (g + 1 + zoomSteps) hg2 (by omega)
    rw [zoomSequenceFrames, dif_pos hguard]
    constructor
    · rw [List.map_append, iterationFrames_map_number, ihnum]
      rw [show g + 1 + zoomSteps + 1 = (g + 1) + (zoomSteps + 1) from rfl]
      have happ := List.range'_append (g + 1) (zoomSteps + 1) (d * (zoomSteps + 1)) 1
      rw [one_mul] at happ
      rw [happ]
      rw [show d * (zoomSteps + 1) + (zoomSteps + 1) = (d + 1) * (zoomSteps + 1) from by ring]
    · intro f hf
      rcases List.mem_append.mp hf with hf | hf
      · exact iterationFrames_names baseTileSize zoomFactor base ext zoomSteps g f hf
      · exact ihname f hf

/-- C7: from a counter starting at 0 and pre-incremented to 1 for the first
frame, the zoom sequence with `zoomSteps = S` and `maxIterations = M`
produces exactly `M * (S + 1)` frames numbered consecutively `1, …,
M*(S+1)` (so iteration `i` spans `(i-1)*(S+1)+1 … i*(S+1)`), each named by
inserting the zero-padded (≥ 4 digits) counter before the extension; the
loop's real-division guard is exactly the integer condition
`floor(g/(S+1)) < M`; and concretely frame 1 is `f_0001.png` and frame 6 is
`f_0006.png`. -/
theorem claim_C7_frame_numbering :
    (∀ (baseTileSize : Int) (zoomFactor : ℚ) (base ext : JStr)
      (zoomSteps maxIterations : Nat),
      ((zoomSequenceFrames baseTileSize zoomFactor base ext zoomSteps maxIterations 0).map
        Frame.number = List.range' 1 (maxIterations * (zoomSteps + 1))) ∧
      ((zoomSequenceFrames baseTileSize zoomFactor base ext zoomSteps
        maxIterations 0).length = maxIterations * (zoomSteps + 1)) ∧
      (∀ f ∈ zoomSequenceFrames baseTileSize zoomFactor base ext zoomSteps
        maxIterations 0, f.name = frameFileName base ext f.number)) ∧
    (∀ (zoomSteps maxIterations g : Nat),
      (((g : ℚ) / ((zoomSteps : ℚ) + 1) < (maxIterations : ℚ)) ↔
        g / (zoomSteps + 1) < maxIterations)) ∧
    frameFileName "f".data ".png".data 1 = "f_0001.png".data ∧
    frameFileName "f".data ".png".data 6 = "f_0006.png".data := by
  refine ⟨?_, zoomGuard_iff, by decide, by decide⟩
  intro baseTileSize zoomFactor base ext zoomSteps maxIterations
  have h0 : (0 : Nat) = (maxIterations - maxIterations) * (zoomSteps + 1) := by
    rw [Nat.sub_self, Nat.zero_mul]
  obtain ⟨hnum, hname⟩ := zoomSequenceFrames_spec_aux baseTileSize zoomFactor base ext
    zoomSteps maxIterations maxIterations 0 h0 (le_refl _)
  refine ⟨hnum, ?_, hname⟩
  have hlen := congrArg List.length hnum
  simpa using hlen

/-- Witness for C7: with 4 zoom steps and 2 iterations the frames are
numbered 1 through 10 (iteration 1 = frames 1-5, iteration 2 starts at 6),
and the first frame's file name pads the counter to `0001`. -/
theorem claim_C7_witness :
    ((zoomSequenceFrames 40 (9 / 10) "f".data ".png".data 4 2 0).map Frame.number =
      List.range' 1 10) ∧
    ((zoomSequenceFrames 40 (9 / 10) "f".data ".png".data 4 2 0).length = 10) ∧
    (((0 : Nat) : ℚ) / ((4 : ℚ) + 1) < ((2 : Nat) : ℚ) ↔ 0 / (4 + 1) < 2) ∧
    frameFileName "f".data ".png".data 1 = "f_0001.png".data :=
  ⟨(claim_C7_frame_numbering.1 40 (9 / 10) "f".data ".png".data 4 2).1,
   (claim_C7_frame_numbering.1 40 (9 / 10) "f".data ".png".data 4 2).2.1,
   claim_C7_frame_numbering.2.1 4 2 0,
   claim_C7_frame_numbering.2.2.1⟩

/-- The whitespace characters stripped by `String.prototype.trim` (ASCII
subset; the cache content is ASCII). -/
def isJsWs (c : Char) : Bool :=
  c = ' ' || c = '\t' || c = '\n' || c = '\r' || c = '\x0b' || c = '\x0c'

/-- `s.trim()`: strip leading and trailing whitespace. -/
def trimChars (s : JStr) : JStr :=
  ((s.dropWhile isJsWs).reverse.dropWhile isJsWs).reverse

/-- `arr.join(sep)` for a one-character separator. -/
def joinWith (sep : Char) : List JStr → JStr
  | [] => []
  | [l] => l
  | l :: ls => l ++ sep :: joinWith sep ls

/-- `s.split(sep)` for a one-character separator: splits at every
occurrence, keeping empty pieces (`"".split(sep)` is `[""]`). -/
def splitChar (sep : Char) : JStr → List JStr
  | [] => [[]]
  | c :: cs =>
    match splitChar sep cs with
    | [] => [[]]
    | w :: ws => if c = sep then [] :: w :: ws else (c :: w) :: ws

/-- A decimal digit character. -/
def isDigitChar (c : Char) : Bool := 48 ≤ c.toNat && c.toNat ≤ 57

/-- Numeric value of a decimal digit character. -/
def digitVal (c : Char) : Nat := c.toNat - 48

/-- Value of a run of decimal digit characters. -/
def digitsToNat (ds : JStr) : Nat := ds.foldl (fun a c => a * 10 + digitVal c) 0

/-- Maximal leading digit run of an (already trimmed) string, or `none`
when there is none — the digit-consuming part of `parseInt`. -/
def parseNatChars (s : JStr) : Option Nat :=
  match s.takeWhile isDigitChar with
  | [] => none
  | ds => some (digitsToNat ds)

/-- `parseInt(s)` (base 10) on an already-trimmed string: optional sign
then the maximal leading digit run, ignoring any trailing garbage; `none`
models `NaN`. -/
def jsParseInt (s : JStr) : Option Int :=
  match s with
  | [] => none
  | c :: rest =>
    if c = '-' then (parseNatChars rest).map (fun n => -(n : Int))
    else if c = '+' then (parseNatChars rest).map (fun n => ((n : Nat) : Int))
    else (parseNatChars (c :: rest)).map (fun n => ((n : Nat) : Int))

/-- JS number→string for an integer value: minus sign then decimal
digits. -/
def intToChars (i : Int) : JStr :=
  if i < 0 then '-' :: natToChars i.natAbs else natToChars i.toNat

/-- One record as produced by the cache loader; a `none` channel models the
JS `NaN` that `parseInt` yields on a malformed field. -/
structure LoadedTile where
  path : JStr
  r : Option Int
  g : Option Int
  b : Option Int
deriving DecidableEq, Repr

/-- The loader image of an in-memory tile record. -/
def tileToLoaded (t : Tile) : LoadedTile := ⟨t.path, some t.r, some t.g, some t.b⟩

/-- The fixed cache header line. -/
def cacheHeader : JStr := "path,r,g,b".data

/-- One CSV row written for a tile:
`` `${tile.path},${tile.r},${tile.g},${tile.b}` `` (source line 226). -/
def tileLine (t : Tile) : JStr :=
  t.path ++ ',' :: (intToChars t.r ++ ',' :: (intToChars t.g ++ ',' :: intToChars t.b))

/-- `saveTileCacheToCSV` (source lines 222-233): the file content written —
header line plus one row per tile, joined with newlines. -/
def saveTileCacheToCSV (tiles : List Tile) : JStr :=
  joinWith '\n' (cacheHeader :: tiles.map tileLine)

/-- One cache line parsed by the loader (source lines 200-212): split on
commas, destructure the first four fields, keep the row only when all four
are non-empty, then trim each field and parse the channel values. -/
def parseCacheLine (line : JStr) : Option LoadedTile :=
  match splitChar ',' line with
  | p :: r :: g :: b :: _ =>
    if p ≠ [] ∧ r ≠ [] ∧ g ≠ [] ∧ b ≠ [] then
      some ⟨trimChars p, jsParseInt (trimChars r), jsParseInt (trimChars g),
        jsParseInt (trimChars b)⟩
    else none
  | _ => none

/-- `loadTileCacheFromCSV` (source lines 193-219) applied to file content:
trim the whole text, split on newlines, skip the header line, and parse the
remaining rows, silently dropping malformed ones. -/
def loadTileCacheFromCSV (csvData : JStr) : List LoadedTile :=
  ((splitChar '\n' (trimChars csvData)).drop 1).filterMap parseCacheLine

/-- `splitChar` never returns the empty list of pieces. -/
theorem splitChar_ne_nil (sep : Char) : ∀ s : JStr, splitChar sep s ≠ []
  | [] => by simp [splitChar]
  | c :: cs => by
    simp only [splitChar]
    cases h : splitChar sep cs with
    | nil => simp
    | cons w ws =>
      by_cases hc : c = sep
      · simp [hc]
      · simp [hc]

/-- Splitting a separator-free string yields that one piece. -/
theorem splitChar_no_sep (sep : Char) : ∀ (s : JStr), sep ∉ s → splitChar sep s = [s]
  | [], _ => rfl
  | c :: cs, h => by
    have hc : c ≠ sep := fun hcs => h (hcs ▸ List.mem_cons_self c cs)
    have ih := splitChar_no_sep sep cs (fun hm => h (List.mem_cons_of_mem c hm))
    simp only [splitChar, ih]
    simp [hc]

/-- Splitting past a separator-free prefix peels off that prefix as the
first piece. -/
theorem splitChar_append (sep : Char) :
    ∀ (x rest : JStr), sep ∉ x →
      splitChar sep (x ++ sep :: rest) = x :: splitChar sep rest
  | [], rest, _ => by
    simp only [List.nil_append, splitChar]
    cases h : splitChar sep rest with
    | nil => exact absurd h (splitChar_ne_nil sep rest)
    | cons w ws => simp
  | c :: cs, rest, h => by
    have hc : c ≠ sep := fun hcs => h (hcs ▸ List.mem_cons_self c cs)
    have ih := splitChar_append sep cs rest (fun hm => h (List.mem_cons_of_mem c hm))
    simp only [List.cons_append, splitChar, List.append_eq]
    rw [ih]
    simp [hc]

/-- Splitting undoes joining when no piece contains the separator. -/
theorem splitChar_joinWith (sep : Char) :
    ∀ (ls : List JStr), ls ≠ [] → (∀ l ∈ ls, sep ∉ l) →
      splitChar sep (joinWith sep ls) = ls
  | [], h, _ => absurd rfl h
  | [l], _, hsep => by
    simp only [joinWith]
    exact splitChar_no_sep sep l (hsep l (List.mem_cons_self l []))
  | l :: l2 :: ls, _, hsep => by
    have ih := splitChar_joinWith sep (l2 :: ls) (by simp)
      (fun x hx => hsep x (List.mem_cons_of_mem l hx))
    simp only [joinWith]
    rw [splitChar_append sep l (joinWith sep (l2 :: ls))
      (hsep l (List.mem_cons_self l (l2 :: ls)))]
    rw [ih]

/-- `dropWhile` is the identity when the head (if any) fails the
predicate. -/
theorem dropWhile_eq_self_of_head (p : Char → Bool) (l : JStr)
    (h : ∀ c, l.head? = some c → p c = false) : l.dropWhile p = l := by
  cases l with
  | nil => rfl
  | cons a as => simp [List.dropWhile, h a rfl]

/-- `trim` is the identity on a string whose first and last characters are
not whitespace. -/
theorem trimChars_eq_self (l : JStr)
    (hh : ∀ c, l.head? = some c → isJsWs c = false)
    (hl : ∀ c, l.getLast? = some c → isJsWs c = false) : trimChars l = l := by
  unfold trimChars
  rw [dropWhile_eq_self_of_head _ _ hh]
  rw [dropWhile_eq_self_of_head]
  · exact List.reverse_reverse l
  · intro c hc
    rw [List.head?_reverse] at hc
    exact hl c hc

/-- `trim` is the identity on a string with no whitespace at all. -/
theorem trimChars_eq_self_of_all (l : JStr) (h : ∀ c ∈ l, isJsWs c = false) :
    trimChars l = l := by
  refine trimChars_eq_self l (fun c hc => ?_) (fun c hc => ?_)
  · cases l with
    | nil => cases hc
    | cons a as =>
      simp only [List.head?_cons, Option.some.injEq] at hc
      subst hc
      exact h a (List.mem_cons_self a as)
  · have : c ∈ l := by
      cases l with
      | nil => cases hc
      | cons a as =>
        rw [List.getLast?_eq_getLast (a :: as) (by simp)] at hc
        cases hc
        exact List.getLast_mem (by simp)
    exact h c this

/-- The ten digit characters are digit characters with the expected value
and are not whitespace, separators, or signs. -/
theorem digitChar_spec (d : Nat) (hd : d < 10) :
    isDigitChar (digitChar d) = true ∧ digitVal (digitChar d) = d ∧
    isJsWs (digitChar d) = false ∧ digitChar d ≠ ',' ∧ digitChar d ≠ '\n' ∧
    digitChar d ≠ '-' ∧ digitChar d ≠ '+' := by
  interval_cases d <;> decide

/-- Every character emitted by `natToCharsCore` is a digit character. -/
theorem natToCharsCore_digits : ∀ (fuel n : Nat), ∀ c ∈ natToCharsCore fuel n,
    ∃ d, d < 10 ∧ c = digitChar d
  | 0, n => by simp [natToCharsCore]
  | fuel + 1, n => by
    intro c hc
    simp only [natToCharsCore] at hc
    by_cases h : n < 10
    · rw [if_pos h] at hc
      simp only [List.mem_singleton] at hc
      exact ⟨n, h, hc⟩
    · rw [if_neg h] at hc
      rcases List.mem_append.mp hc with hc | hc
      · exact natToCharsCore_digits fuel (n / 10) c hc
      · simp only [List.mem_singleton] at hc
        exact ⟨n % 10, Nat.mod_lt n (by omega), hc⟩

/-- Folding one more digit onto an accumulated value. -/
theorem digitsToNat_append (ds : JStr) (c : Char) :
    digitsToNat (ds ++ [c]) = digitsToNat ds * 10 + digitVal c := by
  simp [digitsToNat, List.foldl_append]

/-- Reading back the digits of `n` recovers `n`. -/
theorem digitsToNat_natToCharsCore : ∀ (fuel n : Nat), n < fuel →
    digitsToNat (natToCharsCore fuel n) = n
  | 0, n, h => absurd h (by omega)
  | fuel + 1, n, h => by
    simp only [natToCharsCore]
    by_cases h10 : n < 10
    · rw [if_pos h10]
      simp [digitsToNat, (digitChar_spec n h10).2.1]
    · rw [if_neg h10]
      rw [digitsToNat_append]
      have hrec : n / 10 < fuel := by
        have hlt : n / 10 < n := Nat.div_lt_self (by omega) (by omega)
        omega
      rw [digitsToNat_natToCharsCore fuel (n / 10) hrec]
      rw [(digitChar_spec (n % 10) (Nat.mod_lt n (by omega))).2.1]
      omega

/-- Round trip for the JS digits of a natural number. -/
theorem natToChars_roundtrip (n : Nat) : digitsToNat (natToChars n) = n :=
  digitsToNat_natToCharsCore (n + 1) n (by omega)

/-- The digit string of a natural number is never empty. -/
theorem natToCharsCore_ne_nil (fuel n : Nat) (h : n < fuel) :
    natToCharsCore fuel n ≠ [] := by
  cases fuel with
  | zero => omega
  | succ fuel =>
    simp only [natToCharsCore]
    by_cases h10 : n < 10
    · rw [if_pos h10]
      simp
    · rw [if_neg h10]
      simp

/-- The digit string of a natural number is never empty. -/
theorem natToChars_ne_nil (n : Nat) : natToChars n ≠ [] :=
  natToCharsCore_ne_nil (n + 1) n (by omega)

/-- Every character of `natToChars` is a digit character. -/
theorem natToChars_digits (n : Nat) :
    ∀ c ∈ natToChars n, ∃ d, d < 10 ∧ c = digitChar d :=
  natToCharsCore_digits (n + 1) n

/-- `takeWhile` keeps a list all of whose elements pass. -/
theorem takeWhile_eq_self_of_all (p : Char → Bool) :
    ∀ (l : JStr), (∀ c ∈ l, p c = true) → l.takeWhile p = l
  | [], _ => rfl
  | c :: cs, h => by
    simp only [List.takeWhile, h c (List.mem_cons_self c cs)]
    rw [takeWhile_eq_self_of_all p cs (fun x hx => h x (List.mem_cons_of_mem c hx))]

/-- The digit parser inverts the digit printer. -/
theorem parseNatChars_natToChars (n : Nat) : parseNatChars (natToChars n) = some n := by
  have hall : (natToChars n).takeWhile isDigitChar = natToChars n :=
    takeWhile_eq_self_of_all isDigitChar (natToChars n)
      (fun c hc => by
        obtain ⟨d, hd, rfl⟩ := natToChars_digits n c hc
        exact (digitChar_spec d hd).1)
  unfold parseNatChars
  rw [hall]
  cases hnc : natToChars n with
  | nil => exact absurd hnc (natToChars_ne_nil n)
  | cons c cs =>
    have hval : digitsToNat (c :: cs) = n := by
      rw [← hnc]
      exact natToChars_roundtrip n
    simp [hval]

/-- `parseInt` inverts the digit printer on non-negative values. -/
theorem jsParseInt_natToChars (m : Nat) : jsParseInt (natToChars m) = some (m : Int) := by
  cases hnc : natToChars m with
  | nil => exact absurd hnc (natToChars_ne_nil m)
  | cons c cs =>
    have hcm : c ∈ natToChars m := by
      rw [hnc]
      exact List.mem_cons_self c cs
    obtain ⟨d, hd, hcd⟩ := natToChars_digits m c hcm
    have hminus : ¬(c = '-') := by
      rw [hcd]
      exact (digitChar_spec d hd).2.2.2.2.2.1
    have hplus : ¬(c = '+') := by
      rw [hcd]
      exact (digitChar_spec d hd).2.2.2.2.2.2
    simp only [jsParseInt, if_neg hminus, if_neg hplus]
    rw [← hnc, parseNatChars_natToChars]
    rfl

/-- A digit character is not whitespace. -/
theorem isDigitChar_not_ws (c : Char) (h : isDigitChar c = true) : isJsWs c = false := by
  have h1 : c ≠ ' ' := fun he => absurd (he ▸ h) (by decide)
  have h2 : c ≠ '\t' := fun he => absurd (he ▸ h) (by decide)
  have h3 : c ≠ '\n' := fun he => absurd (he ▸ h) (by decide)
  have h4 : c ≠ '\r' := fun he => absurd (he ▸ h) (by decide)
  have h5 : c ≠ '\x0b' := fun he => absurd (he ▸ h) (by decide)
  have h6 : c ≠ '\x0c' := fun he => absurd (he ▸ h) (by decide)
  simp [isJsWs, h1, h2, h3, h4, h5, h6]

/-- A digit character is not a comma. -/
theorem isDigitChar_ne_comma (c : Char) (h : isDigitChar c = true) : c ≠ ',' :=
  fun he => absurd (he ▸ h) (by decide)

/-- A digit character is not a newline. -/
theorem isDigitChar_ne_newline (c : Char) (h : isDigitChar c = true) : c ≠ '\n' :=
  fun he => absurd (he ▸ h) (by decide)

/-- Every character of a printed integer is a digit or the minus sign. -/
theorem intToChars_chars (i : Int) :
    ∀ c ∈ intToChars i, isDigitChar c = true ∨ c = '-' := by
  intro c hc
  unfold intToChars at hc
  split at hc
  · rcases List.mem_cons.mp hc with rfl | hc
    · exact Or.inr rfl
    · obtain ⟨d, hd, rfl⟩ := natToChars_digits _ c hc
      exact Or.inl (digitChar_spec d hd).1
  · obtain ⟨d, hd, rfl⟩ := natToChars_digits _ c hc
    exact Or.inl (digitChar_spec d hd).1

/-- A printed integer contains no comma. -/
theorem intToChars_no_comma (i : Int) : ',' ∉ intToChars i := by
  intro hm
  rcases intToChars_chars i ',' hm with h | h
  · exact absurd h (by decide)
  · exact absurd h (by decide)

/-- A printed integer contains no newline. -/
theorem intToChars_no_newline (i : Int) : '\n' ∉ intToChars i := by
  intro hm
  rcases intToChars_chars i '\n' hm with h | h
  · exact absurd h (by decide)
  · exact absurd h (by decide)

/-- A printed integer contains no whitespace. -/
theorem intToChars_no_ws (i : Int) : ∀ c ∈ intToChars i, isJsWs c = false := by
  intro c hc
  rcases intToChars_chars i c hc with h | h
  · exact isDigitChar_not_ws c h
  · rw [h]
    decide

/-- A printed integer is never the empty string. -/
theorem intToChars_ne_nil (i : Int) : intToChars i ≠ [] := by
  unfold intToChars
  split
  · simp
  · exact natToChars_ne_nil i.toNat

/-- Trimming a printed integer is the identity. -/
theorem trim_intToChars (i : Int) : trimChars (intToChars i) = intToChars i :=
  trimChars_eq_self_of_all _ (intToChars_no_ws i)

/-- `parseInt` inverts JS integer printing. -/
theorem jsParseInt_intToChars (i : Int) : jsParseInt (intToChars i) = some i := by
  unfold intToChars
  split
  · rename_i hneg
    simp only [jsParseInt, parseNatChars_natToChars]
    simp [abs_of_neg hneg]
  · rename_i hpos
    rw [jsParseInt_natToChars]
    congr 1
    omega

/-- Last element of a non-empty list is a member. -/
theorem mem_of_getLast? {l : JStr} {c : Char} (h : l.getLast? = some c) : c ∈ l := by
  cases l with
  | nil => cases h
  | cons a as =>
    rw [List.getLast?_eq_getLast (a :: as) (by simp)] at h
    cases h
    exact List.getLast_mem (by simp)

/-- `getLast?` skips a cons when the tail is non-empty. -/
theorem getLast?_cons_of_ne_nil (c : Char) (l : JStr) (h : l ≠ []) :
    (c :: l).getLast? = l.getLast? := by
  rw [show c :: l = [c] ++ l from rfl]
  exact List.getLast?_append_of_ne_nil [c] h

/-- A tile row contains no newline when the tile's path contains none. -/
theorem tileLine_no_newline (t : Tile) (hp : '\n' ∉ t.path) : '\n' ∉ tileLine t := by
  intro hm
  unfold tileLine at hm
  simp only [List.mem_append, List.mem_cons] at hm
  rcases hm with hm | hm | hm | hm | hm | hm | hm
  · exact hp hm
  · exact absurd hm (by decide)
  · exact absurd hm (intToChars_no_newline t.r)
  · exact absurd hm (by decide)
  · exact absurd hm (intToChars_no_newline t.g)
  · exact absurd hm (by decide)
  · exact absurd hm (intToChars_no_newline t.b)

/-- A tile row is never empty. -/
theorem tileLine_ne_nil (t : Tile) : tileLine t ≠ [] := by
  unfold tileLine
  simp

/-- Splitting a tile row on commas recovers the four fields, provided the
path is comma-free. -/
theorem splitChar_tileLine (t : Tile) (hp : ',' ∉ t.path) :
    splitChar ',' (tileLine t) =
      [t.path, intToChars t.r, intToChars t.g, intToChars t.b] := by
  unfold tileLine
  rw [splitChar_append ',' t.path _ hp]
  rw [splitChar_append ',' _ _ (intToChars_no_comma t.r)]
  rw [splitChar_append ',' _ _ (intToChars_no_comma t.g)]
  rw [splitChar_no_sep ',' _ (intToChars_no_comma t.b)]

/-- Parsing a written tile row recovers the record, for a well-formed
path. -/
theorem parseCacheLine_tileLine (t : Tile) (hp1 : t.path ≠ []) (hp2 : ',' ∉ t.path)
    (hp4 : trimChars t.path = t.path) :
    parseCacheLine (tileLine t) = some (tileToLoaded t) := by
  simp only [parseCacheLine, splitChar_tileLine t hp2]
  rw [if_pos ⟨hp1, intToChars_ne_nil t.r, intToChars_ne_nil t.g, intToChars_ne_nil t.b⟩]
  rw [hp4, trim_intToChars, trim_intToChars, trim_intToChars,
    jsParseInt_intToChars, jsParseInt_intToChars, jsParseInt_intToChars]
  rfl

/-- `join` distributes over appending one final line. -/
theorem joinWith_concat (sep : Char) :
    ∀ (ls : List JStr) (l : JStr), ls ≠ [] →
      joinWith sep (ls ++ [l]) = joinWith sep ls ++ sep :: l
  | [], l, h => absurd rfl h
  | [x], l, _ => rfl
  | x :: y :: ls, l, _ => by
    rw [show (x :: y :: ls) ++ [l] = x :: ((y :: ls) ++ [l]) from rfl]
    rw [show joinWith sep (x :: ((y :: ls) ++ [l])) =
      x ++ sep :: joinWith sep ((y :: ls) ++ [l]) from rfl]
    rw [joinWith_concat sep (y :: ls) l (by simp)]
    simp [joinWith, List.append_assoc]

/-- The last character of a tile row is the last digit of its blue
channel. -/
theorem tileLine_getLast? (t : Tile) :
    (tileLine t).getLast? = (intToChars t.b).getLast? := by
  unfold tileLine
  rw [List.getLast?_append_of_ne_nil _ (by simp)]
  rw [getLast?_cons_of_ne_nil _ _ (by simp)]
  rw [List.getLast?_append_of_ne_nil _ (by simp)]
  rw [getLast?_cons_of_ne_nil _ _ (by simp)]
  rw [List.getLast?_append_of_ne_nil _ (by simp)]
  rw [getLast?_cons_of_ne_nil _ _ (intToChars_ne_nil t.b)]

/-- Trimming the whole written cache file is the identity: it starts with
the header's `p` and ends with a digit. -/
theorem save_trim (ts : List Tile) :
    trimChars (saveTileCacheToCSV ts) = saveTileCacheToCSV ts := by
  refine trimChars_eq_self _ ?_ ?_
  · intro c hc
    have hhead : (saveTileCacheToCSV ts).head? = some 'p' := by
      unfold saveTileCacheToCSV
      cases ts with
      | nil => rfl
      | cons t ts2 => rfl
    rw [hhead] at hc
    cases hc
    decide
  · intro c hc
    rcases List.eq_nil_or_concat ts with rfl | ⟨init, last, hts⟩
    · have hlast : (saveTileCacheToCSV []).getLast? = some 'b' := rfl
      rw [hlast] at hc
      cases hc
      decide
    · rw [List.concat_eq_append] at hts
      subst hts
      have hsave : saveTileCacheToCSV (init ++ [last]) =
          joinWith '\n' (cacheHeader :: init.map tileLine) ++ '\n' :: tileLine last := by
        unfold saveTileCacheToCSV
        rw [List.map_append]
        rw [show List.map tileLine [last] = [tileLine last] from rfl]
        rw [show cacheHeader :: (init.map tileLine ++ [tileLine last]) =
          (cacheHeader :: init.map tileLine) ++ [tileLine last] from rfl]
        exact joinWith_concat '\n' (cacheHeader :: init.map tileLine) (tileLine last)
          (by simp)
      rw [hsave] at hc
      rw [List.getLast?_append_of_ne_nil _ (by simp)] at hc
      rw [getLast?_cons_of_ne_nil _ _ (tileLine_ne_nil last)] at hc
      rw [tileLine_getLast?] at hc
      exact intToChars_no_ws last.b c (mem_of_getLast? hc)

/-- Parsing the written rows recovers the records, for well-formed
paths. -/
theorem filterMap_parseCacheLine :
    ∀ (ts : List Tile),
      (∀ t ∈ ts, t.path ≠ [] ∧ ',' ∉ t.path ∧ trimChars t.path = t.path) →
      (ts.map tileLine).filterMap parseCacheLine = ts.map tileToLoaded
  | [], _ => rfl
  | t :: ts, h => by
    have ht := h t (List.mem_cons_self t ts)
    simp only [List.map_cons, List.filterMap_cons]
    rw [parseCacheLine_tileLine t ht.1 ht.2.1 ht.2.2]
    rw [filterMap_parseCacheLine ts (fun x hx => h x (List.mem_cons_of_mem t hx))]

/-- Save-then-load round trip, for records whose paths are non-empty,
comma-free, newline-free, and untouched by trimming. -/
theorem loadTileCache_save (ts : List Tile)
    (h : ∀ t ∈ ts,
      t.path ≠ [] ∧ ',' ∉ t.path ∧ '\n' ∉ t.path ∧ trimChars t.path = t.path) :
    loadTileCacheFromCSV (saveTileCacheToCSV ts) = ts.map tileToLoaded := by
  unfold loadTileCacheFromCSV
  rw [save_trim]
  have hnl : ∀ l ∈ cacheHeader :: ts.map tileLine, '\n' ∉ l := by
    intro l hl
    rcases List.mem_cons.mp hl with rfl | hl
    · decide
    · obtain ⟨t, ht, rfl⟩ := List.mem_map.mp hl
      exact tileLine_no_newline t (h t ht).2.2.1
  rw [show saveTileCacheToCSV ts = joinWith '\n' (cacheHeader :: ts.map tileLine)
    from rfl]
  rw [splitChar_joinWith '\n' (cacheHeader :: ts.map tileLine) (by simp) hnl]
  rw [show (cacheHeader :: ts.map tileLine).drop 1 = ts.map tileLine from rfl]
  exact filterMap_parseCacheLine ts
    (fun t ht => ⟨(h t ht).1, (h t ht).2.1, (h t ht).2.2.2⟩)

/-- Counterexample for C5: a record whose path contains a comma does not
round-trip — saving `{path: "a,b", r:10, g:20, b:30}` and loading the text
back yields one record with path `"a"`, `r` equal to `NaN` (the comma
shifted the fields, so `parseInt("b")` fails), `g = 10` and `b = 20`,
not a record identical to the original. -/
theorem claim_C5_counterexample :
    (loadTileCacheFromCSV (saveTileCacheToCSV [⟨"a,b".data, 10, 20, 30⟩]) =
      [⟨"a".data, none, some 10, some 20⟩]) ∧
    loadTileCacheFromCSV (saveTileCacheToCSV [⟨"a,b".data, 10, 20, 30⟩]) ≠
      [tileToLoaded ⟨"a,b".data, 10, 20, 30⟩] :=
  ⟨by decide, by decide⟩

/-- C5 (amended): for every list of tile records whose paths are non-empty,
contain no comma and no newline, and are unchanged by trimming, writing the
cache text and reading it back yields exactly the same number of records
with identical path and channel values (the channels wrapped by the
loader's successful `parseInt`). -/
theorem claim_C5_cache_roundtrip :
    ∀ (ts : List Tile),
      (∀ t ∈ ts, t.path ≠ [] ∧ ',' ∉ t.path ∧ '\n' ∉ t.path ∧
        trimChars t.path = t.path) →
      loadTileCacheFromCSV (saveTileCacheToCSV ts) = ts.map tileToLoaded ∧
      (loadTileCacheFromCSV (saveTileCacheToCSV ts)).length = ts.length := by
  intro ts h
  have hload := loadTileCache_save ts h
  refine ⟨hload, ?_⟩
  rw [hload, List.length_map]

/-- Witness for C5: a two-record corpus with ordinary paths round-trips
exactly. -/
theorem claim_C5_witness :
    loadTileCacheFromCSV (saveTileCacheToCSV
        [⟨"a".data, 10, 20, 30⟩, ⟨"b/c.png".data, 0, 255, 7⟩]) =
      [(⟨"a".data, 10, 20, 30⟩ : Tile), ⟨"b/c.png".data, 0, 255, 7⟩].map tileToLoaded ∧
    (loadTileCacheFromCSV (saveTileCacheToCSV
        [⟨"a".data, 10, 20, 30⟩, ⟨"b/c.png".data, 0, 255, 7⟩])).length = 2 :=
  claim_C5_cache_roundtrip [⟨"a".data, 10, 20, 30⟩, ⟨"b/c.png".data, 0, 255, 7⟩]
    (by decide)
